import Mathlib

/-!
Shallow embedding of the clokai tool-call orchestration pipeline
(src/core/claude_tool_system.py, src/core/tool_validator.py,
src/core/smart_tool_system.py, src/config.py) together with proofs of the
specification claims about it.

Conventions used throughout:
* Python dicts with string keys are embedded as association lists
  `List (String × _)`; insertion order matters in Python 3.7+ dicts and is
  preserved by the list. Lookup takes the first matching key.
* Machine time (`execution_time`) is irrelevant to every claim and is
  omitted from the result records.
-/

namespace Clokai

/-- JSON-like argument values, as produced by `json.loads` in the source.
Compound values are restricted to one level of nesting (lists of strings,
objects with string values): every behavior the specification claims
exercise — truthiness, equality, Python hashability (a compound value makes
`frozenset(args.items())` raise `TypeError`) — is already exhibited at this
depth, and the restriction keeps equality decidable. -/
inductive Value where
  | str (s : String)
  | num (n : Int)
  | bool (b : Bool)
  | null
  | strList (xs : List String)
  | strObj (fields : List (String × String))
deriving DecidableEq, Repr

/-- Python truthiness (`bool(v)`): empty string, zero, `False`, `None`,
empty list and empty dict are falsy. -/
def truthy : Value → Bool
  | .str s => s ≠ ""
  | .num n => n ≠ 0
  | .bool b => b
  | .null => false
  | .strList xs => xs ≠ []
  | .strObj fields => fields ≠ []

/-- Python hashability of a value: `hash` succeeds on str/int/bool/None and
raises `TypeError` on list and dict values. -/
def hashable : Value → Bool
  | .str _ => true
  | .num _ => true
  | .bool _ => true
  | .null => true
  | .strList _ => false
  | .strObj _ => false

/-- `f"{v}"` for the values the validator interpolates into strings. Python
renders `True`/`False`/`None` with capital letters. -/
def pyStr : Value → String
  | .str s => s
  | .num n => toString n
  | .bool true => "True"
  | .bool false => "False"
  | .null => "None"
  | .strList _ => "<list>"
  | .strObj _ => "<dict>"

/-- `args.get(k)`: `some v` when the key is present, `none` otherwise. -/
def getArg (args : List (String × Value)) (k : String) : Option Value :=
  (args.find? fun kv => kv.1 = k).map Prod.snd

/-- `args.get(k₁, args.get(k₂, d))`: key-presence based defaulting (a present
but falsy value is still returned, unlike an `or`-chain). -/
def getArg2D (args : List (String × Value)) (k₁ k₂ : String) (d : Value) : Value :=
  ((getArg args k₁).getD ((getArg args k₂).getD d))

/-- Python `a or b` over two optional lookups: the first operand is kept
only when present and truthy. -/
def orTruthy (a b : Option Value) : Option Value :=
  match a with
  | some v => if truthy v then some v else b
  | none => b

/-- Bool-valued substring test, `needle in hay` on Python strings. -/
def strContainsSub (hay needle : String) : Bool :=
  hay.data.tails.any fun t => needle.data.isPrefixOf t

/-- A parsed tool call (`ToolCall` dataclass in claude_tool_system.py).
The optional `id` field is never set by the parser and is omitted. -/
structure ToolCall where
  name : String
  args : List (String × Value)
deriving DecidableEq, Repr

/-! ### Call Parser (`ClaudeToolSystem.parse_tool_calls`)

The response text is embedded as a list of fragments, each abstracting one
regex match candidate of `parse_tool_calls` (or inert text). The
abstraction is faithful on texts whose fragments render without the
regex-significant characters of the other patterns (no brackets/braces or
fences inside argument strings); the concrete witnesses below stay in that
domain. -/

/-- One syntactic fragment of the model response text:
* `marker`: `TOOL_CALL: name\nARGS: {...}` (regex `pattern1`);
* `markerBlock`: the same wrapped in a ```tool_call fence (`pattern1b`;
  note `pattern1` also matches inside the fence, so such a fragment is
  collected twice before deduplication);
* `xmlInvoke`: an `<invoke name=...>` element (`pattern2`);
* `jsonBlock`: a fenced ```json code block holding an array of
  `{"tool": ..., "args": ...}` entries (`json_pattern1`; removed from the
  text before the bare-array scan);
* `bareArray`: a bare `[...]` array of such entries (`json_pattern2`);
* `plain`: text matched by no pattern. -/
inductive Fragment where
  | marker (name : String) (args : List (String × Value))
  | markerBlock (name : String) (args : List (String × Value))
  | xmlInvoke (name : String) (params : List (String × Value))
  | jsonBlock (calls : List (String × List (String × Value)))
  | bareArray (calls : List (String × List (String × Value)))
  | plain (s : String)
deriving DecidableEq, Repr

/-- Calls contributed by a fragment to `matches1` (the plain marker regex,
which also fires inside ```tool_call fences). -/
def fragMarkerCalls : Fragment → List ToolCall
  | .marker n a => [⟨n, a⟩]
  | .markerBlock n a => [⟨n, a⟩]
  | _ => []

/-- Calls contributed by a fragment to `matches1b` (the fenced marker regex). -/
def fragMarkerBlockCalls : Fragment → List ToolCall
  | .markerBlock n a => [⟨n, a⟩]
  | _ => []

/-- Calls contributed by a fragment to `matches2` (the XML-like regex). -/
def fragXmlCalls : Fragment → List ToolCall
  | .xmlInvoke n a => [⟨n, a⟩]
  | _ => []

/-- Calls contributed by a fragment to `json_matches1` (fenced json blocks). -/
def fragJsonBlockCalls : Fragment → List ToolCall
  | .jsonBlock cs => cs.map fun pr => ⟨pr.1, pr.2⟩
  | _ => []

/-- Calls contributed by a fragment to `json_matches2` (bare arrays, scanned
after json code blocks have been removed from the text). -/
def fragBareArrayCalls : Fragment → List ToolCall
  | .bareArray cs => cs.map fun pr => ⟨pr.1, pr.2⟩
  | _ => []

/-- The pre-deduplication `tool_calls` list: `parse_tool_calls` first
collects every `pattern1` match, then `pattern1b`, then the XML matches,
then the json-block matches followed by the bare-array matches — each
pattern's own matches in text order, but the patterns one after another,
not interleaved by text position. -/
def collectCalls (frags : List Fragment) : List ToolCall :=
  frags.flatMap fragMarkerCalls ++ frags.flatMap fragMarkerBlockCalls ++
    frags.flatMap fragXmlCalls ++
    frags.flatMap fragJsonBlockCalls ++ frags.flatMap fragBareArrayCalls

/-- Deduplication signature: `f"{call.name}_{hash(frozenset(call.args.items()))}"`.
The frozenset of key/value pairs is order-independent; we idealize the hash
as injective and keep the set itself. -/
abbrev Sig := String × Finset (String × Value)

/-- Signature of one call. -/
def sigOf (c : ToolCall) : Sig := (c.name, c.args.toFinset)

/-- Args are Python-hashable iff every value is hashable; otherwise building
the frozenset raises `TypeError`. -/
def hashableArgs (c : ToolCall) : Bool :=
  c.args.all fun kv => hashable kv.2

/-- The deduplication loop at the end of `parse_tool_calls`: keep the first
call of each signature; computing the signature of a call with unhashable
argument values raises `TypeError`, aborting the whole parse. -/
def dedupCalls : List ToolCall → List Sig → Except Unit (List ToolCall)
  | [], _ => .ok []
  | c :: cs, seen =>
    if hashableArgs c then
      if sigOf c ∈ seen then dedupCalls cs seen
      else (dedupCalls cs (sigOf c :: seen)).map (c :: ·)
    else .error ()

/-- `ClaudeToolSystem.parse_tool_calls`: collect the matches of every
pattern, then deduplicate preserving the collected order. -/
def parse_tool_calls (frags : List Fragment) : Except Unit (List ToolCall) :=
  dedupCalls (collectCalls frags) []

/-- All calls of one fragment, in their textual order (used only to state
what the specification asks of the parser's output order). -/
def fragCallsTextOrder : Fragment → List ToolCall
  | .marker n a => [⟨n, a⟩]
  | .markerBlock n a => [⟨n, a⟩]
  | .xmlInvoke n a => [⟨n, a⟩]
  | .jsonBlock cs => cs.map fun pr => ⟨pr.1, pr.2⟩
  | .bareArray cs => cs.map fun pr => ⟨pr.1, pr.2⟩
  | .plain _ => []

/-- Every call of the text, ordered by first appearance in the text. -/
def textOrderCalls (frags : List Fragment) : List ToolCall :=
  frags.flatMap fragCallsTextOrder

/-- Modelled from the spec: the output order the specification claims —
deduplication by signature keeping the first occurrence, over the calls in
textual order of first appearance. Compared against `parse_tool_calls`. -/
def dedupFirstSeen : List ToolCall → List Sig → List ToolCall
  | [], _ => []
  | c :: cs, seen =>
    if sigOf c ∈ seen then dedupFirstSeen cs seen
    else c :: dedupFirstSeen cs (sigOf c :: seen)

/-! ### Conflict Analyzer (`ClaudeToolSystem._analyze_dependencies`) -/

/-- The file-tool set of the dependency heuristic. -/
def fileTools : List String := ["read_file", "write_file", "edit_file"]

/-- The resolved file path of a call:
`args.get('path') or args.get('arg1') or args.get('arg')` followed by the
`if file_path:` truthiness test; `none` for non-file tools and for calls
whose three candidate arguments are all absent or falsy. -/
def resolvedFilePath (c : ToolCall) : Option Value :=
  if c.name ∈ fileTools then
    match orTruthy (getArg c.args "path")
        (orTruthy (getArg c.args "arg1") (getArg c.args "arg")) with
    | some v => if truthy v then some v else none
    | none => none
  else none

/-- The bucket of path `p` in the `file_operations` dict model. -/
def bucketOf (m : List (Value × List ToolCall)) (p : Value) : List ToolCall :=
  ((m.find? fun pr => decide (pr.1 = p)).map Prod.snd).getD []

/-- Remove the bucket of path `p`. -/
def eraseBucket (m : List (Value × List ToolCall)) (p : Value) :
    List (Value × List ToolCall) :=
  m.filter fun pr => decide (pr.1 ≠ p)

/-- The grouping loop of `_analyze_dependencies`: partition the batch into
the `file_operations` dict (path → calls in original order, paths in
first-seen order) and the `other_tools` list. Processing the head call
first and re-fronting its bucket reproduces the insertion-order dict built
by the source's left-to-right loop. -/
def splitCalls : List ToolCall → List (Value × List ToolCall) × List ToolCall
  | [] => ([], [])
  | c :: cs =>
    match resolvedFilePath c with
    | some p => ((p, c :: bucketOf (splitCalls cs).1 p) ::
                   eraseBucket (splitCalls cs).1 p, (splitCalls cs).2)
    | none => ((splitCalls cs).1, c :: (splitCalls cs).2)

/-- `ClaudeToolSystem._analyze_dependencies`: buckets with more than one
call become dependent chains, singleton buckets independent groups, and
the non-file calls one final independent group (when nonempty).
Returns `(independent_groups, dependent_chains)`. -/
def analyzeDependencies (calls : List ToolCall) :
    List (List ToolCall) × List (List ToolCall) :=
  (((splitCalls calls).1.filter fun pr => decide (¬ 1 < pr.2.length)).map
      Prod.snd ++
    (if (splitCalls calls).2.isEmpty then [] else [(splitCalls calls).2]),
   ((splitCalls calls).1.filter fun pr => decide (1 < pr.2.length)).map
     Prod.snd)

/-- All calls of the batch that resolve to file path `p`, in original
relative order. -/
def pathGroup (calls : List ToolCall) (p : Value) : List ToolCall :=
  calls.filter fun c => decide (resolvedFilePath c = some p)

/-! ### Call Validator (`ToolCallValidator`, src/core/tool_validator.py)

Configuration constants from src/config.py. The calls into the external
`tool_monitor` and `logger` collaborators are telemetry with no effect on
validator state or results and are not modelled. -/

def TOOL_CALL_VALIDATION : Bool := true
def MAX_CONSECUTIVE_SAME_TOOL : Nat := 2
def BLOCK_EMPTY_ARGS : Bool := true
def PREVENT_REDUNDANT_FILE_SEARCHES : Bool := true

/-- The validator's mutable session state: `tool_call_history`,
`session_context['consecutive_tool_counts']`, `session_context['recent_searches']`,
`session_context['known_files']` (a set, kept as a duplicate-free list) and
`found_files_cache` (a dict whose keys are the pattern values). -/
structure ValidatorState where
  history : List (String × List (String × Value) × String) := []
  counts : List (String × Nat) := []
  recentSearches : List String := []
  knownFiles : List String := []
  foundFilesCache : List (Value × String) := []
deriving DecidableEq, Repr

/-- `path.strip() == ''` on a string value (on a truthy non-string the
source would raise `AttributeError`; the claims only exercise string
arguments, and a falsy value is caught before this test). -/
def isBlankStr : Value → Bool
  | .str s => s.data.all Char.isWhitespace
  | _ => false

/-- `ToolCallValidator._has_empty_args`. -/
def hasEmptyArgs (tool : String) (args : List (String × Value)) : Bool :=
  if args.isEmpty then true
  else if tool = "find_files" then
    let pat := getArg2D args "pattern" "arg1" (.str "")
    !truthy pat || decide (pat = .str "*")
  else if tool = "read_file" then
    let path := getArg2D args "path" "arg1" (.str "")
    !truthy path || isBlankStr path
  else if tool = "run_command" then
    let cmd := getArg2D args "cmd" "arg1" (.str "")
    !truthy cmd || isBlankStr cmd
  else false

/-- `consecutive_tool_counts.get(tool_name, 0)`. -/
def countsGet (counts : List (String × Nat)) (tool : String) : Nat :=
  ((counts.find? fun pr => decide (pr.1 = tool)).map Prod.snd).getD 0

/-- `ToolCallValidator._exceeds_consecutive_limit`. -/
def exceedsConsecutiveLimit (σ : ValidatorState) (tool : String) : Bool :=
  MAX_CONSECUTIVE_SAME_TOOL ≤ countsGet σ.counts tool

/-- `ToolCallValidator._is_redundant_file_search`. Returns the verdict and
the (possibly mutated) `recent_searches` list: a non-redundant `find_files`
validation appends its `pattern:search_type` signature and evicts the
oldest entry beyond five — a state mutation performed during validation. -/
def isRedundantFileSearch (σ : ValidatorState) (tool : String)
    (args : List (String × Value)) : Bool × List String :=
  if tool = "find_files" then
    let pat := getArg2D args "pattern" "arg1" (.str "")
    let st := getArg2D args "search_type" "arg2" (.str "name")
    if σ.foundFilesCache.any fun pr => decide (pr.1 = pat) then
      (true, σ.recentSearches)
    else
      let key := pyStr pat ++ ":" ++ pyStr st
      if key ∈ σ.recentSearches then (true, σ.recentSearches)
      else
        let rs := σ.recentSearches ++ [key]
        (false, if 5 < rs.length then rs.drop 1 else rs)
  else (false, σ.recentSearches)

/-- `ToolCallValidator.validate_tool_call`:
`(should_execute, reason, state after validation)`. -/
def validate_tool_call (σ : ValidatorState) (tool : String)
    (args : List (String × Value)) : Bool × Option String × ValidatorState :=
  if !TOOL_CALL_VALIDATION then (true, none, σ)
  else if BLOCK_EMPTY_ARGS && hasEmptyArgs tool args then
    (false, some ("Blocked " ++ tool ++ ": Empty or invalid arguments"), σ)
  else if exceedsConsecutiveLimit σ tool then
    (false, some ("Blocked " ++ tool ++ ": Exceeded consecutive call limit (" ++
      toString MAX_CONSECUTIVE_SAME_TOOL ++ ")"), σ)
  else if PREVENT_REDUNDANT_FILE_SEARCHES then
    let vr := isRedundantFileSearch σ tool args
    let σ' := { σ with recentSearches := vr.2 }
    if vr.1 then (false, some ("Blocked " ++ tool ++ ": Redundant file search"), σ')
    else (true, none, σ')
  else (true, none, σ)

/-- The consecutive-count update of `record_tool_call`: increment a tool
already present, otherwise replace the whole map by `{tool: 1}`. -/
def countsBump (counts : List (String × Nat)) (tool : String) :
    List (String × Nat) :=
  if counts.any fun pr => decide (pr.1 = tool) then
    counts.map fun pr => if pr.1 = tool then (pr.1, pr.2 + 1) else pr
  else [(tool, 1)]

/-- Split a char list at the first occurrence of `sep`
(Python `s.split(sep, 1)` when it splits). -/
def splitOnceChars (sep : List Char) : List Char → Option (List Char × List Char)
  | [] => none
  | c :: rest =>
    if sep.isPrefixOf (c :: rest) then some ([], (c :: rest).drop sep.length)
    else match splitOnceChars sep rest with
      | some (pre, post) => some (c :: pre, post)
      | none => none

/-- Python `s.split(sep, 1)`. -/
def pySplitOnce1 (s sep : String) : List String :=
  match splitOnceChars sep.data s.data with
  | some (pre, post) => [String.mk pre, String.mk post]
  | none => [s]

/-- Add to the known-files set. -/
def addKnownFile (files : List String) (f : String) : List String :=
  if f ∈ files then files else files ++ [f]

/-- `ToolCallValidator._extract_found_files`: collect the filenames of
numbered result lines like `1. CLAUDE.md` into the known-files set. -/
def extractFoundFiles (known : List String) (result : String) : List String :=
  (result.splitOn "\n").foldl (fun acc line =>
    if line.trim ≠ "" ∧ ¬ line.startsWith "Found" ∧ ¬ line.startsWith "No files" then
      match pySplitOnce1 line.trim ". " with
      | [_, fname] => addKnownFile acc fname.trim
      | _ => acc
    else acc) known

/-- `dict[k] = v` on the found-files cache. -/
def cacheSet (cache : List (Value × String)) (k : Value) (v : String) :
    List (Value × String) :=
  if cache.any fun pr => decide (pr.1 = k) then
    cache.map fun pr => if pr.1 = k then (pr.1, v) else pr
  else cache ++ [(k, v)]

/-- `ToolCallValidator.record_tool_call`: append to the history, bump the
consecutive counts, and for a `find_files` whose result reports `Found`,
cache the result under its pattern and harvest the found filenames. -/
def record_tool_call (σ : ValidatorState) (tool : String)
    (args : List (String × Value)) (result : String) : ValidatorState :=
  let σ₁ := { σ with history := σ.history ++ [(tool, args, result)],
                     counts := countsBump σ.counts tool }
  if tool = "find_files" ∧ strContainsSub result "Found" then
    let pat := getArg2D args "pattern" "arg1" (.str "")
    if truthy pat then
      { σ₁ with foundFilesCache := cacheSet σ₁.foundFilesCache pat result,
                knownFiles := extractFoundFiles σ₁.knownFiles result }
    else σ₁
  else σ₁

/-- `ToolCallValidator.reset_context`: clears the consecutive counts and
the recent-search window; the caches persist. -/
def reset_context (σ : ValidatorState) : ValidatorState :=
  { σ with counts := [], recentSearches := [] }

/-! ### Execution engine of `ClaudeToolSystem` (`_execute_single_tool`) -/

/-- The names registered in `TOOL_REGISTRY` (src/tools/tool_registry.py). -/
def TOOL_REGISTRY : List String :=
  ["read_file", "write_file", "edit_file", "run_command", "find_files",
   "list_directory"]

/-- Outcome of calling a registered tool function through
`_call_tool_function`: a returned value or a raised exception. The tool
functions are external collaborators, so executions are parametrized by a
function producing this outcome. -/
inductive ToolOutcome where
  | ok (v : String)
  | exn (e : String)
deriving DecidableEq, Repr

/-- `ToolResult` of claude_tool_system.py (`execution_time` omitted). -/
structure CtResult where
  callName : String
  callArgs : List (String × Value)
  result : Option String
  success : Bool
  error : Option String
deriving DecidableEq, Repr

/-- `ClaudeToolSystem._execute_single_tool`: validate, look up the
registry, execute, and record. `record_tool_call` runs only on the
successful branch; a raised exception is caught and returned as a failed
result with the validator state left as validation produced it. -/
def executeSingleToolCT (toolFn : String → List (String × Value) → ToolOutcome)
    (σ : ValidatorState) (c : ToolCall) : CtResult × ValidatorState :=
  let v := validate_tool_call σ c.name c.args
  let σ₁ := v.2.2
  if !v.1 then
    ({ callName := c.name
       callArgs := c.args
       result := some ("Blocked: " ++ (v.2.1.getD "None"))
       success := false
       error := v.2.1 }, σ₁)
  else if c.name ∉ TOOL_REGISTRY then
    ({ callName := c.name
       callArgs := c.args
       result := none
       success := false
       error := some ("Tool '" ++ c.name ++ "' not found") }, σ₁)
  else match toolFn c.name c.args with
    | .ok value =>
      ({ callName := c.name
         callArgs := c.args
         result := some value
         success := true
         error := none },
       record_tool_call σ₁ c.name c.args value)
    | .exn e =>
      ({ callName := c.name
         callArgs := c.args
         result := none
         success := false
         error := some e }, σ₁)

/-! ### Smart tool system (src/core/smart_tool_system.py) -/

/-- `ToolRequest` (the timestamp-derived `id` field is omitted: it never
enters the cache key or any claim). -/
structure SRequest where
  action : String
  params : List (String × Value)
deriving DecidableEq, Repr

/-- `ToolResult` of smart_tool_system.py (`execution_time` omitted).
Result objects live in a store (`SmartState.store`) and are referred to by
index, so that Python object identity — mutation of a cached result seen
through every alias — is observable. -/
structure SResult where
  reqAction : String
  reqParams : List (String × Value)
  success : Bool
  result : Option String
  error : Option String
  cached : Bool
deriving DecidableEq, Repr

/-- Cache key: `f"{action}_{hash(str(sorted(params.items())))}"`; sorting
makes it order-independent and we idealize the hash as injective, keeping
the set of pairs. -/
abbrev SmartCacheKey := String × Finset (String × Value)

def smartCacheKey (r : SRequest) : SmartCacheKey := (r.action, r.params.toFinset)

/-- State of a `SmartToolSystem` instance: the result cache (key → store
index), the store of all result objects ever created (index = identity),
and the log of real tool-function invocations. -/
structure SmartState where
  cache : List (SmartCacheKey × Nat) := []
  store : List SResult := []
  execLog : List (String × List (String × Value)) := []
deriving DecidableEq

/-- Tools whose successful results are stored in the cache
(`['read_file', 'list_directory', 'find_files']`). -/
def CACHEABLE_TOOLS : List String := ["read_file", "list_directory", "find_files"]

def cacheLookup (cache : List (SmartCacheKey × Nat)) (k : SmartCacheKey) :
    Option Nat :=
  (cache.find? fun pr => decide (pr.1 = k)).map Prod.snd

/-- `cached_result.cached = True`: in-place mutation of the stored result
object. -/
def markCached (store : List SResult) (i : Nat) : List SResult :=
  match store[i]? with
  | some s => store.set i { s with cached := true }
  | none => store

/-- `SmartToolSystem._execute_single_tool`: on a cache hit the stored
result object itself is mutated to `cached=True` and its identity is
returned — no copy is made. On a miss the tool function runs (logged in
`execLog`), a fresh result object is appended to the store, and successful
results of cacheable tools are entered into the cache. The `tracker` calls
are external telemetry and not modelled. Returns the store index of the
returned result object. -/
def executeSingleToolSmart
    (toolFn : String → List (String × Value) → ToolOutcome)
    (σ : SmartState) (r : SRequest) : Nat × SmartState :=
  let key := smartCacheKey r
  match cacheLookup σ.cache key with
  | some i => (i, { σ with store := markCached σ.store i })
  | none =>
    if r.action ∉ TOOL_REGISTRY then
      let res : SResult := { reqAction := r.action
                             reqParams := r.params
                             success := false
                             result := none
                             error := some ("Unknown tool: " ++ r.action)
                             cached := false }
      (σ.store.length, { σ with store := σ.store ++ [res] })
    else match toolFn r.action r.params with
      | .ok value =>
        let res : SResult := { reqAction := r.action
                               reqParams := r.params
                               success := true
                               result := some value
                               error := none
                               cached := false }
        let σ' : SmartState := { σ with
          store := σ.store ++ [res]
          execLog := σ.execLog ++ [(r.action, r.params)] }
        if r.action ∈ CACHEABLE_TOOLS then
          (σ.store.length, { σ' with cache := σ'.cache ++ [(key, σ.store.length)] })
        else (σ.store.length, σ')
      | .exn e =>
        let res : SResult := { reqAction := r.action
                               reqParams := r.params
                               success := false
                               result := none
                               error := some e
                               cached := false }
        (σ.store.length, { σ with
          store := σ.store ++ [res]
          execLog := σ.execLog ++ [(r.action, r.params)] })

/-- `ExecutionContext` (the `user_input` and `tool_requests` fields do not
enter the failure-merging logic and are omitted). -/
structure SExecutionContext where
  results : List SResult := []
  retryCount : Nat := 0
  maxRetries : Nat := 2
deriving DecidableEq, Repr

/-- `SmartToolSystem._handle_tool_failures`. `corrected` abstracts the
LLM round trip and JSON extraction of corrected calls (`none`: no JSON
array found or a raised exception); `ex` abstracts the recursive
`_execute_tools_with_progress` call on the corrected requests. Returns
`none` when no correction happens (the original results stand). -/
def handle_tool_failures (ex : List SRequest → List SResult)
    (ctx : SExecutionContext) (corrected : Option (List SRequest)) :
    Option (List SResult) :=
  if ctx.maxRetries ≤ ctx.retryCount then none
  else match corrected with
    | none => none
    | some [] => none
    | some reqs => some ((ctx.results.filter fun r => r.success) ++ ex reqs)

/-! ### Force keywords (`SmartToolSystem._has_force_keywords` /
`_handle_force_keywords`) -/

def FORCE_KEYWORDS : List String :=
  ["!read", "!write", "!edit", "!run", "!exec", "!find", "!search", "!list",
   "!ls"]

/-- Python `s.lower()` on the ASCII inputs the claims exercise. Written
over the character list so that proofs can evaluate it. -/
def pyLower (s : String) : String := String.mk (s.data.map Char.toLower)

/-- `_has_force_keywords`: substring match anywhere in the lowercased
input. -/
def has_force_keywords (input : String) : Bool :=
  FORCE_KEYWORDS.any fun k => strContainsSub (pyLower input) k

/-- Python `user_input.split(None, 1)`: strip leading whitespace, take the
first whitespace-run-delimited token, strip the whitespace after it, and
keep the rest verbatim. -/
def pySplitWsOnce (s : String) : List String :=
  let cs := s.data.dropWhile Char.isWhitespace
  let tok := cs.takeWhile fun c => !c.isWhitespace
  let rest := (cs.dropWhile fun c => !c.isWhitespace).dropWhile Char.isWhitespace
  if tok.isEmpty then []
  else if rest.isEmpty then [String.mk tok]
  else [String.mk tok, String.mk rest]

/-- The `keyword_map` of `_handle_force_keywords` (note `!edit` is detected
by `_has_force_keywords` but absent from this map). -/
def keywordToTool (kw : String) (argument : String) : Option SRequest :=
  if kw = "!read" then some ⟨"read_file", [("path", .str argument)]⟩
  else if kw = "!write" then
    some ⟨"write_file", [("path", .str argument),
                         ("content", .str "Please specify content")]⟩
  else if kw = "!list" then some ⟨"list_directory", [("path", .str argument)]⟩
  else if kw = "!ls" then some ⟨"list_directory", [("path", .str argument)]⟩
  else if kw = "!run" then some ⟨"run_command", [("cmd", .str argument)]⟩
  else if kw = "!exec" then some ⟨"run_command", [("cmd", .str argument)]⟩
  else if kw = "!find" then some ⟨"find_files", [("pattern", .str argument)]⟩
  else if kw = "!search" then some ⟨"find_files", [("pattern", .str argument)]⟩
  else none

/-- `SmartToolSystem._handle_force_keywords`; `ex` abstracts
`_execute_single_tool` on the mapped request. -/
def handle_force_keywords (ex : SRequest → SResult) (input : String) :
    String × List SResult :=
  match pySplitWsOnce input with
  | [t, rest] =>
    let kw := pyLower t
    match keywordToTool kw rest with
    | none => ("Unknown force keyword: " ++ kw, [])
    | some req =>
      let res := ex req
      if res.success then ("Executed " ++ kw ++ " successfully", [res])
      else ("Failed to execute " ++ kw ++ ": " ++ res.error.getD "None", [res])
  | _ => ("Force command needs an argument (e.g., !read filename.py)", [])

/-- The force-keyword branch at the top of
`SmartToolSystem.process_user_request`: taken exactly when
`_has_force_keywords` fires. -/
def process_force_path (ex : SRequest → SResult) (input : String) :
    Option (String × List SResult) :=
  if has_force_keywords input then some (handle_force_keywords ex input)
  else none

/-! ### Concrete scenario data used by witnesses and counterexamples -/

/-- The state of a freshly constructed `ToolCallValidator`. -/
def initValidatorState : ValidatorState := {}

/-- The state of a freshly constructed `SmartToolSystem`. -/
def initSmartState : SmartState := {}

/-- A text whose bare-array call precedes its marker call. -/
def fragsBareThenMarker : List Fragment :=
  [.bareArray [("find_files", [("pattern", Value.str "x")])],
   .marker "read_file" [("path", Value.str "a.py")]]

/-- A text with a well-formed marker call followed by a json code block
whose call carries a list-valued argument (unhashable in Python). -/
def fragsWithUnhashable : List Fragment :=
  [.marker "read_file" [("path", Value.str "a.py")],
   .jsonBlock [("run_command", [("cmd", Value.strList ["ls", "-la"])])]]

/-- The same call in marker format and in bare-array format with the
argument pairs in the opposite order. -/
def fragsTwoFormats : List Fragment :=
  [.marker "read_file" [("path", Value.str "a.py"), ("x", Value.num 1)],
   .bareArray [("read_file", [("x", Value.num 1), ("path", Value.str "a.py")])]]

/-- One marker call, one json-block call and one bare-array call with
pairwise distinct signatures, plus inert text. -/
def fragsMixed : List Fragment :=
  [.marker "read_file" [("path", Value.str "a.py")],
   .jsonBlock [("find_files", [("pattern", Value.str "x")])],
   .bareArray [("run_command", [("cmd", Value.str "ls")])],
   .plain "hello"]

/-- A tool function that returns fixed file contents. -/
def contentsTool : String → List (String × Value) → ToolOutcome :=
  fun _ _ => .ok "contents"

/-- A tool function that raises on every call. -/
def throwingTool : String → List (String × Value) → ToolOutcome :=
  fun _ _ => .exn "boom"

/-- A read request used to exercise the result cache. -/
def readReq : SRequest := ⟨"read_file", [("path", Value.str "a.py")]⟩

/-- A read call used to exercise the claude-system executor. -/
def readCall : ToolCall := ⟨"read_file", [("path", Value.str "a.py")]⟩

/-- An executor stub that succeeds on every request. -/
def succeedingExec : SRequest → SResult :=
  fun r => ⟨r.action, r.params, true, some "ok", none, false⟩

/-- A two-result batch with one success and one failure. -/
def mixedResults : List SResult :=
  [⟨"read_file", [("path", Value.str "a.py")], true, some "text", none, false⟩,
   ⟨"read_file", [("path", Value.str "missing.py")], false, none,
    some "No such file", false⟩]

/-- The corrected result replacing the failure of `mixedResults`. -/
def correctedResult : SResult :=
  ⟨"read_file", [("path", Value.str "present.py")], true, some "text2", none,
   false⟩

/-- An execution context holding `mixedResults` with retries available. -/
def correctionCtx : SExecutionContext :=
  { results := mixedResults, retryCount := 0, maxRetries := 2 }

/-- An executor stub that runs the corrected batch to one success. -/
def correctionExec : List SRequest → List SResult := fun _ => [correctedResult]

/-- The corrected call suggested by the model. -/
def correctionReqs : List SRequest :=
  [⟨"read_file", [("path", Value.str "present.py")]⟩]

/-- A four-call batch: two file calls on `a.py`, one non-file call, one
file call on `b.py`. -/
def analyzerBatch : List ToolCall :=
  [⟨"read_file", [("path", Value.str "a.py")]⟩,
   ⟨"write_file", [("path", Value.str "a.py"), ("content", Value.str "x")]⟩,
   ⟨"run_command", [("cmd", Value.str "ls")]⟩,
   ⟨"read_file", [("path", Value.str "b.py")]⟩]

/-! ## Theorems -/

/-! ### Parser deduplication lemmas -/

/-- Unfolding equation of the deduplication loop. -/
theorem dedupCalls_cons (c : ToolCall) (cs : List ToolCall) (seen : List Sig) :
    dedupCalls (c :: cs) seen
      = if hashableArgs c = true then
          (if sigOf c ∈ seen then dedupCalls cs seen
           else (dedupCalls cs (sigOf c :: seen)).map (c :: ·))
        else .error () := rfl

/-- Unfolding equation of the first-seen filter. -/
theorem dedupFirstSeen_cons (c : ToolCall) (cs : List ToolCall)
    (seen : List Sig) :
    dedupFirstSeen (c :: cs) seen
      = if sigOf c ∈ seen then dedupFirstSeen cs seen
        else c :: dedupFirstSeen cs (sigOf c :: seen) := rfl

/-- On all-hashable input the deduplication loop does not raise and
computes the first-seen filter. -/
theorem dedupCalls_eq_firstSeen (l : List ToolCall) :
    ∀ seen, (∀ c ∈ l, hashableArgs c = true) →
      dedupCalls l seen = .ok (dedupFirstSeen l seen) := by
  induction l with
  | nil => intro seen _; rfl
  | cons c cs ih =>
    intro seen hh
    rw [dedupCalls_cons, dedupFirstSeen_cons,
      if_pos (hh c (List.mem_cons_self c cs))]
    by_cases hmem : sigOf c ∈ seen
    · rw [if_pos hmem, if_pos hmem]
      exact ih seen fun x hx => hh x (List.mem_cons_of_mem _ hx)
    · rw [if_neg hmem, if_neg hmem,
        ih _ fun x hx => hh x (List.mem_cons_of_mem _ hx)]
      rfl

/-- A successful deduplication is the first-seen filter. -/
theorem dedupCalls_ok_eq (l : List ToolCall) :
    ∀ seen r, dedupCalls l seen = .ok r → r = dedupFirstSeen l seen := by
  induction l with
  | nil =>
    intro seen r h
    cases h
    rfl
  | cons c cs ih =>
    intro seen r h
    unfold dedupCalls at h
    unfold dedupFirstSeen
    split at h
    · by_cases hmem : sigOf c ∈ seen
      · rw [if_pos hmem] at h
        rw [if_pos hmem]
        exact ih seen r h
      · rw [if_neg hmem] at h
        rw [if_neg hmem]
        cases hrec : dedupCalls cs (sigOf c :: seen) with
        | error e => rw [hrec] at h; cases h
        | ok r' =>
          rw [hrec] at h
          cases h
          exact congrArg (c :: ·) (ih _ r' hrec)
    · cases h

/-- The first-seen filter only depends on the membership of the seen set. -/
theorem dedupFirstSeen_congr (l : List ToolCall) :
    ∀ seen₁ seen₂, (∀ s, s ∈ seen₁ ↔ s ∈ seen₂) →
      dedupFirstSeen l seen₁ = dedupFirstSeen l seen₂ := by
  induction l with
  | nil => intros; rfl
  | cons c cs ih =>
    intro s₁ s₂ hiff
    unfold dedupFirstSeen
    by_cases hmem : sigOf c ∈ s₁
    · rw [if_pos hmem, if_pos ((hiff _).mp hmem)]
      exact ih _ _ hiff
    · rw [if_neg hmem, if_neg fun hx => hmem ((hiff _).mpr hx)]
      exact congrArg (c :: ·) (ih _ _ fun s => by
        simp only [List.mem_cons]
        rw [hiff s])

/-- A signature-distinct unseen block passes through the first-seen filter
verbatim. -/
theorem dedupFirstSeen_append_nodup (l : List ToolCall) :
    ∀ (m : List ToolCall) (seen : List Sig),
      (l.map sigOf).Nodup → (∀ c ∈ l, sigOf c ∉ seen) →
      dedupFirstSeen (l ++ m) seen
        = l ++ dedupFirstSeen m (l.map sigOf ++ seen) := by
  induction l with
  | nil => intro m seen _ _; rfl
  | cons c cs ih =>
    intro m seen hnd hns
    rw [List.cons_append, dedupFirstSeen_cons]
    rw [List.map_cons, List.nodup_cons] at hnd
    rw [if_neg (hns c (List.mem_cons_self c cs))]
    rw [ih m (sigOf c :: seen) hnd.2 fun x hx => by
      simp only [List.mem_cons]
      rintro (he | hs)
      · refine hnd.1 ?_
        rw [← he]
        exact List.mem_map_of_mem sigOf hx
      · exact hns x (List.mem_cons_of_mem _ hx) hs]
    rw [List.map_cons, List.cons_append, List.cons_append]
    refine congrArg (c :: ·) (congrArg (cs ++ ·) ?_)
    refine dedupFirstSeen_congr m _ _ fun s => ?_
    simp only [List.mem_append, List.mem_cons]
    tauto

/-- Calls whose signatures were all seen are dropped without changing the
seen set. -/
theorem dedupFirstSeen_skip (b : List ToolCall) :
    ∀ (m : List ToolCall) (seen : List Sig), (∀ c ∈ b, sigOf c ∈ seen) →
      dedupFirstSeen (b ++ m) seen = dedupFirstSeen m seen := by
  induction b with
  | nil => intro m seen _; rfl
  | cons c cs ih =>
    intro m seen hb
    rw [List.cons_append, dedupFirstSeen_cons]
    rw [if_pos (hb c (List.mem_cons_self c cs))]
    exact ih m seen fun x hx => hb x (List.mem_cons_of_mem _ hx)

/-- Structure of the first-seen filter output: seen signatures never occur
in it, its signatures are pairwise distinct, every input call is
represented (unless pre-seen), and each output call is the first input
call with its signature. -/
theorem dedupFirstSeen_spec (l : List ToolCall) :
    ∀ seen : List Sig,
      (∀ s ∈ seen, s ∉ (dedupFirstSeen l seen).map sigOf) ∧
      ((dedupFirstSeen l seen).map sigOf).Nodup ∧
      (∀ c ∈ l, sigOf c ∈ seen ∨
        ∃ c' ∈ dedupFirstSeen l seen, sigOf c' = sigOf c) ∧
      (∀ c' ∈ dedupFirstSeen l seen,
        l.find? (fun x => decide (sigOf x = sigOf c')) = some c') := by
  induction l with
  | nil =>
    intro seen
    refine ⟨by simp [dedupFirstSeen], by simp [dedupFirstSeen],
      by simp, by simp [dedupFirstSeen]⟩
  | cons c cs ih =>
    intro seen
    rw [dedupFirstSeen_cons]
    by_cases hmem : sigOf c ∈ seen
    · rw [if_pos hmem]
      obtain ⟨ih1, ih2, ih3, ih4⟩ := ih seen
      refine ⟨ih1, ih2, ?_, ?_⟩
      · intro x hx
        rcases List.mem_cons.mp hx with rfl | hxs
        · exact Or.inl hmem
        · exact ih3 x hxs
      · intro c' hc'
        rw [List.find?_cons_of_neg, ih4 c' hc']
        simp only [decide_eq_true_eq]
        intro he
        refine ih1 (sigOf c) hmem ?_
        rw [he]
        exact List.mem_map_of_mem sigOf hc'
    · rw [if_neg hmem]
      obtain ⟨ih1, ih2, ih3, ih4⟩ := ih (sigOf c :: seen)
      have hcnot : sigOf c ∉
          (dedupFirstSeen cs (sigOf c :: seen)).map sigOf :=
        ih1 (sigOf c) (List.mem_cons_self _ _)
      refine ⟨?_, ?_, ?_, ?_⟩
      · intro s hs
        rw [List.map_cons]
        intro hmm
        rcases List.mem_cons.mp hmm with he | hss
        · exact hmem (he ▸ hs)
        · exact ih1 s (List.mem_cons_of_mem _ hs) hss
      · rw [List.map_cons]
        exact List.nodup_cons.mpr ⟨hcnot, ih2⟩
      · intro x hx
        rcases List.mem_cons.mp hx with rfl | hxs
        · exact Or.inr ⟨x, List.mem_cons_self _ _, rfl⟩
        · rcases ih3 x hxs with hseen | ⟨c', hc', he⟩
          · rcases List.mem_cons.mp hseen with he | hs
            · exact Or.inr ⟨c, List.mem_cons_self _ _, he.symm⟩
            · exact Or.inl hs
          · exact Or.inr ⟨c', List.mem_cons_of_mem _ hc', he⟩
      · intro c' hc'
        rcases List.mem_cons.mp hc' with rfl | hcs
        · exact List.find?_cons_of_pos _ (by simp)
        · rw [List.find?_cons_of_neg, ih4 c' hcs]
          simp only [decide_eq_true_eq]
          intro he
          have hmm := List.mem_map_of_mem sigOf hcs
          rw [← he] at hmm
          exact hcnot hmm

/-- A wholly new, signature-distinct list passes through the first-seen
filter unchanged. -/
theorem dedupFirstSeen_all_new (l : List ToolCall) (seen : List Sig)
    (hnd : (l.map sigOf).Nodup) (hns : ∀ c ∈ l, sigOf c ∉ seen) :
    dedupFirstSeen l seen = l := by
  have h := dedupFirstSeen_append_nodup l [] seen hnd hns
  rw [List.append_nil] at h
  rw [show dedupFirstSeen [] (l.map sigOf ++ seen) = [] from rfl,
    List.append_nil] at h
  exact h

/-- Every `markerBlock` call collected by the fenced regex is also
collected by the plain marker regex. -/
theorem markerBlock_sub_marker (frags : List Fragment) :
    ∀ c ∈ frags.flatMap fragMarkerBlockCalls,
      c ∈ frags.flatMap fragMarkerCalls := by
  intro c hc
  obtain ⟨f, hf, hcf⟩ := List.mem_flatMap.mp hc
  refine List.mem_flatMap.mpr ⟨f, hf, ?_⟩
  cases f with
  | markerBlock n a => exact hcf
  | marker n a => cases hcf
  | xmlInvoke n a => cases hcf
  | jsonBlock cs => cases hcf
  | bareArray cs => cases hcf
  | plain s => cases hcf

/-! ### Conflict-analyzer lemmas -/

/-- Erasing a different key leaves a bucket unchanged. -/
theorem bucketOf_eraseBucket (p q : Value) (hpq : p ≠ q) :
    ∀ m : List (Value × List ToolCall),
      bucketOf (eraseBucket m q) p = bucketOf m p := by
  intro m
  induction m with
  | nil => rfl
  | cons kb rest ih =>
    unfold eraseBucket at ih ⊢
    unfold bucketOf at ih ⊢
    rw [List.filter_cons]
    by_cases hk : kb.1 = q
    · rw [if_neg (by simp [hk])]
      rw [List.find?_cons_of_neg _ (by
        simp only [hk, decide_eq_true_eq]
        exact fun h => hpq h.symm)]
      exact ih
    · rw [if_pos (by simp [hk])]
      by_cases hkp : kb.1 = p
      · rw [List.find?_cons_of_pos _ (by simp [hkp]),
          List.find?_cons_of_pos _ (by simp [hkp])]
      · rw [List.find?_cons_of_neg _ (by simp [hkp]),
          List.find?_cons_of_neg _ (by simp [hkp])]
        exact ih

/-- The second component of the split is the list of calls with no
resolved file path, in original order. -/
theorem splitCalls_snd (calls : List ToolCall) :
    (splitCalls calls).2
      = calls.filter fun c => decide (resolvedFilePath c = none) := by
  induction calls with
  | nil => rfl
  | cons c cs ih =>
    unfold splitCalls
    rw [List.filter_cons]
    cases hr : resolvedFilePath c with
    | some p => rw [if_neg (by simp [hr])]; exact ih
    | none => rw [if_pos (by simp [hr])]; exact congrArg (c :: ·) ih

/-- The bucket of path `p` is exactly the subsequence of batch calls that
resolve to `p`. -/
theorem splitCalls_bucket (calls : List ToolCall) (p : Value) :
    bucketOf (splitCalls calls).1 p = pathGroup calls p := by
  induction calls with
  | nil => rfl
  | cons c cs ih =>
    unfold splitCalls pathGroup
    rw [List.filter_cons]
    cases hr : resolvedFilePath c with
    | none =>
      rw [if_neg (by simp [hr])]
      exact ih
    | some q =>
      by_cases hpq : q = p
      · subst hpq
        rw [if_pos (by simp [hr])]
        unfold bucketOf
        rw [List.find?_cons_of_pos _ (by simp)]
        simpa using congrArg (c :: ·) ih
      · rw [if_neg (by
          simp only [hr, Option.some.injEq, decide_eq_true_eq]
          exact fun h => hpq h)]
        show bucketOf ((q, _) :: eraseBucket (splitCalls cs).1 q) p = _
        unfold bucketOf
        rw [List.find?_cons_of_neg _ (by
          simp only [decide_eq_true_eq]
          exact hpq)]
        rw [show ((List.find? (fun pr => decide (pr.1 = p))
            (eraseBucket (splitCalls cs).1 q)).map Prod.snd).getD []
          = bucketOf (eraseBucket (splitCalls cs).1 q) p from rfl]
        rw [bucketOf_eraseBucket p q (fun h : p = q => hpq h.symm)]
        exact ih

/-- An erased key no longer occurs among the keys. -/
theorem eraseBucket_key_not_mem (m : List (Value × List ToolCall)) (p : Value) :
    p ∉ (eraseBucket m p).map Prod.fst := by
  intro hmem
  obtain ⟨pr, hpr, hfst⟩ := List.mem_map.mp hmem
  have := (List.mem_filter.mp hpr).2
  simp only [decide_eq_true_eq] at this
  exact this hfst

/-- Erasing preserves the key order of the remaining buckets. -/
theorem eraseBucket_sublist (m : List (Value × List ToolCall)) (p : Value) :
    (eraseBucket m p).Sublist m :=
  List.filter_sublist m

/-- Erasing an absent key changes nothing. -/
theorem eraseBucket_eq_self (m : List (Value × List ToolCall)) (p : Value)
    (h : p ∉ m.map Prod.fst) : eraseBucket m p = m := by
  apply List.filter_eq_self.mpr
  intro pr hpr
  simp only [decide_eq_true_eq]
  exact fun he => h (List.mem_map.mpr ⟨pr, hpr, he⟩)

/-- The path keys of the split are pairwise distinct. -/
theorem splitCalls_keys_nodup (calls : List ToolCall) :
    ((splitCalls calls).1.map Prod.fst).Nodup := by
  induction calls with
  | nil => exact List.nodup_nil
  | cons c cs ih =>
    unfold splitCalls
    cases hr : resolvedFilePath c with
    | none => exact ih
    | some p =>
      rw [List.map_cons]
      refine List.nodup_cons.mpr ⟨eraseBucket_key_not_mem _ p, ?_⟩
      exact ih.sublist ((eraseBucket_sublist _ p).map Prod.fst)

/-- Pulling one bucket to the front permutes the concatenation of all
bucket contents, provided the keys are distinct. -/
theorem join_bucket_erase (p : Value) :
    ∀ m : List (Value × List ToolCall), (m.map Prod.fst).Nodup →
      (m.map Prod.snd).flatten.Perm
        (bucketOf m p ++ ((eraseBucket m p).map Prod.snd).flatten) := by
  intro m
  induction m with
  | nil => simp [bucketOf, eraseBucket]
  | cons kb rest ih =>
    intro hnd
    rw [List.map_cons, List.flatten_cons]
    rw [List.map_cons, List.nodup_cons] at hnd
    by_cases hk : kb.1 = p
    · unfold bucketOf eraseBucket
      rw [List.find?_cons_of_pos _ (by simp [hk])]
      rw [List.filter_cons, if_neg (by simp [hk])]
      have hrest : rest.filter (fun pr => decide (pr.1 ≠ p)) = rest :=
        eraseBucket_eq_self rest p (hk ▸ hnd.1)
      rw [hrest]
      exact List.Perm.refl _
    · unfold bucketOf eraseBucket
      rw [List.find?_cons_of_neg _ (by simp [hk])]
      rw [List.filter_cons, if_pos (by simp [hk])]
      rw [List.map_cons, List.flatten_cons]
      have h1 : (kb.2 ++ (rest.map Prod.snd).flatten).Perm
          (kb.2 ++ (bucketOf rest p ++
            ((rest.filter fun pr => decide (pr.1 ≠ p)).map Prod.snd).flatten)) :=
        List.Perm.append_left kb.2 (ih hnd.2)
      refine h1.trans ?_
      rw [← List.append_assoc, ← List.append_assoc]
      exact List.Perm.append_right _ List.perm_append_comm

/-- Every call of the batch lands in exactly one bucket or in the
non-file list: together they are a permutation of the batch. -/
theorem splitCalls_perm (calls : List ToolCall) :
    (((splitCalls calls).1.map Prod.snd).flatten ++ (splitCalls calls).2).Perm
      calls := by
  induction calls with
  | nil => exact List.Perm.refl _
  | cons c cs ih =>
    unfold splitCalls
    cases hr : resolvedFilePath c with
    | none =>
      dsimp only
      exact List.perm_middle.trans (List.Perm.cons c ih)
    | some p =>
      dsimp only
      rw [List.map_cons, List.flatten_cons]
      have h1 := join_bucket_erase p (splitCalls cs).1 (splitCalls_keys_nodup cs)
      rw [List.cons_append]
      exact List.Perm.cons c
        ((List.Perm.append_right _ h1.symm).trans ih)

/-- The bucket of a nonempty path group is an entry of the split map. -/
theorem pathGroup_mem_splitCalls (calls : List ToolCall) (p : Value)
    (h : pathGroup calls p ≠ []) :
    (p, pathGroup calls p) ∈ (splitCalls calls).1 := by
  have hb := splitCalls_bucket calls p
  unfold bucketOf at hb
  cases hf : (splitCalls calls).1.find? (fun pr => decide (pr.1 = p)) with
  | none =>
    rw [hf] at hb
    simp at hb
    exact absurd hb h
  | some pr =>
    rw [hf] at hb
    simp at hb
    have h1 := List.find?_some hf
    simp only [decide_eq_true_eq] at h1
    have h2 := List.mem_of_find?_eq_some hf
    have : pr = (p, pathGroup calls p) := by
      obtain ⟨k, b⟩ := pr
      simp only at h1 hb
      rw [h1, hb]
    rwa [this] at h2

/-- C1: the conflict analyzer partitions the batch as specified — every
file path targeted by at least two calls yields the ordered chain of
exactly those calls (a filter of the batch, hence in original relative
order); a path targeted by exactly one call yields an independent group;
all non-file-tool calls are placed together in one independent group; and
the groups and chains together are a permutation of the batch, so every
request appears exactly once. -/
theorem analyze_dependencies_partition (calls : List ToolCall) :
    (∀ p, 2 ≤ (pathGroup calls p).length →
      pathGroup calls p ∈ (analyzeDependencies calls).2) ∧
    (∀ p, (pathGroup calls p).length = 1 →
      pathGroup calls p ∈ (analyzeDependencies calls).1) ∧
    ((∃ c ∈ calls, c.name ∉ fileTools) →
      ∃ g ∈ (analyzeDependencies calls).1,
        ∀ c ∈ calls, c.name ∉ fileTools → c ∈ g) ∧
    ((analyzeDependencies calls).1.flatten ++
      (analyzeDependencies calls).2.flatten).Perm calls := by
  refine ⟨?_, ?_, ?_, ?_⟩
  · intro p hlen
    have hne : pathGroup calls p ≠ [] := by
      intro h0
      rw [h0] at hlen
      simp at hlen
    have hmem := pathGroup_mem_splitCalls calls p hne
    unfold analyzeDependencies
    refine List.mem_map.mpr ⟨(p, pathGroup calls p),
      List.mem_filter.mpr ⟨hmem, ?_⟩, rfl⟩
    simp only [decide_eq_true_eq]
    omega
  · intro p hlen
    have hne : pathGroup calls p ≠ [] := by
      intro h0
      rw [h0] at hlen
      simp at hlen
    have hmem := pathGroup_mem_splitCalls calls p hne
    unfold analyzeDependencies
    refine List.mem_append_left _ (List.mem_map.mpr ⟨(p, pathGroup calls p),
      List.mem_filter.mpr ⟨hmem, ?_⟩, rfl⟩)
    simp only [decide_eq_true_eq]
    omega
  · rintro ⟨c, hc, hcn⟩
    have hres : resolvedFilePath c = none := by
      unfold resolvedFilePath
      rw [if_neg hcn]
    have hco : c ∈ (splitCalls calls).2 := by
      rw [splitCalls_snd]
      exact List.mem_filter.mpr ⟨hc, by simp [hres]⟩
    have hne : ¬ ((splitCalls calls).2.isEmpty = true) := by
      cases h : (splitCalls calls).2 with
      | nil => rw [h] at hco; cases hco
      | cons a l => simp [h]
    refine ⟨(splitCalls calls).2, ?_, ?_⟩
    · unfold analyzeDependencies
      rw [if_neg hne]
      exact List.mem_append_right _ (List.mem_singleton.mpr rfl)
    · intro c' hc' hcn'
      rw [splitCalls_snd]
      refine List.mem_filter.mpr ⟨hc', ?_⟩
      simp only [decide_eq_true_eq]
      unfold resolvedFilePath
      rw [if_neg hcn']
  · unfold analyzeDependencies
    have hpred : ((splitCalls calls).1.filter fun pr =>
        decide (1 < pr.2.length))
        = (splitCalls calls).1.filter fun pr =>
            !(decide (¬ 1 < pr.2.length)) := by
      apply List.filter_congr
      intro pr _
      by_cases h : 1 < pr.2.length <;> simp [h]
    have hfperm : ((((splitCalls calls).1.filter fun pr =>
          decide (¬ 1 < pr.2.length)).map Prod.snd).flatten ++
        (((splitCalls calls).1.filter fun pr =>
          decide (1 < pr.2.length)).map Prod.snd).flatten).Perm
        (((splitCalls calls).1.map Prod.snd).flatten) := by
      rw [hpred, ← List.flatten_append, ← List.map_append]
      exact ((List.filter_append_perm _ (splitCalls calls).1).map
        Prod.snd).flatten
    cases ho : (splitCalls calls).2 with
    | nil =>
      simp only [List.isEmpty_nil, if_pos, List.append_nil]
      have := splitCalls_perm calls
      rw [ho, List.append_nil] at this
      exact hfperm.trans this
    | cons a l =>
      simp only [List.isEmpty_cons, if_neg, Bool.false_eq_true,
        not_false_iff]
      rw [List.flatten_append]
      have hsingle : ([a :: l] : List (List ToolCall)).flatten = a :: l := by
        simp
      rw [hsingle]
      have hstep : (((((splitCalls calls).1.filter fun pr =>
            decide (¬ 1 < pr.2.length)).map Prod.snd).flatten ++ (a :: l)) ++
          ((((splitCalls calls).1.filter fun pr =>
            decide (1 < pr.2.length)).map Prod.snd).flatten)).Perm
          ((((splitCalls calls).1.map Prod.snd).flatten) ++ (a :: l)) := by
        rw [List.append_assoc]
        refine (List.Perm.append_left _ List.perm_append_comm).trans ?_
        rw [← List.append_assoc]
        exact List.Perm.append_right _ hfperm
      have := splitCalls_perm calls
      rw [ho] at this
      exact hstep.trans this

/-- C1 witness: the partition theorem applied to the concrete four-call
batch — the two `a.py` calls form the chain `[read a.py, write a.py]` in
original order, the singleton `b.py` call an independent group, and the
`run_command` call lands in the final independent group. -/
theorem analyze_dependencies_partition_witness :
    2 ≤ (pathGroup analyzerBatch (Value.str "a.py")).length ∧
    pathGroup analyzerBatch (Value.str "a.py")
      ∈ (analyzeDependencies analyzerBatch).2 ∧
    (pathGroup analyzerBatch (Value.str "b.py")).length = 1 ∧
    pathGroup analyzerBatch (Value.str "b.py")
      ∈ (analyzeDependencies analyzerBatch).1 ∧
    ((analyzeDependencies analyzerBatch).1.flatten ++
      (analyzeDependencies analyzerBatch).2.flatten).Perm analyzerBatch :=
  ⟨by decide,
   (analyze_dependencies_partition analyzerBatch).1 (Value.str "a.py")
     (by decide),
   by decide,
   (analyze_dependencies_partition analyzerBatch).2.1 (Value.str "b.py")
     (by decide),
   (analyze_dependencies_partition analyzerBatch).2.2.2⟩

/-- C3 counterexample: for a text whose bare-array call precedes its
marker call, the parser returns both calls but ordered by pattern
(markers first), not by first appearance in the text — the claimed
first-appearance order is the reversed list. -/
theorem parse_not_first_appearance_order :
    parse_tool_calls fragsBareThenMarker
      = .ok [⟨"read_file", [("path", Value.str "a.py")]⟩,
             ⟨"find_files", [("pattern", Value.str "x")]⟩] ∧
    dedupFirstSeen (textOrderCalls fragsBareThenMarker) []
      = [⟨"find_files", [("pattern", Value.str "x")]⟩,
         ⟨"read_file", [("path", Value.str "a.py")]⟩] ∧
    parse_tool_calls fragsBareThenMarker
      ≠ .ok (dedupFirstSeen (textOrderCalls fragsBareThenMarker) []) := by
  refine ⟨rfl, rfl, ?_⟩
  intro h
  rw [show parse_tool_calls fragsBareThenMarker
      = .ok [⟨"read_file", [("path", Value.str "a.py")]⟩,
             ⟨"find_files", [("pattern", Value.str "x")]⟩] from rfl,
    show dedupFirstSeen (textOrderCalls fragsBareThenMarker) []
      = [⟨"find_files", [("pattern", Value.str "x")]⟩,
         ⟨"read_file", [("path", Value.str "a.py")]⟩] from rfl] at h
  injection h with h'
  exact absurd h' (by decide)

/-- C3 amended: for a text with `N` well-formed marker calls and `M`
well-formed JSON calls of pairwise distinct signatures (and no XML calls),
the parser returns exactly `N + M` requests — but grouped by format: all
marker calls first in text order, then the json-code-block calls, then the
bare-array calls (json code blocks are removed before the bare-array scan,
so no call is counted twice); first-appearance order holds only within
each format, not across formats. -/
theorem parser_counts_formats_grouped (frags : List Fragment)
    (hx : frags.flatMap fragXmlCalls = [])
    (hha : ∀ c ∈ collectCalls frags, hashableArgs c = true)
    (hnd : ((frags.flatMap fragMarkerCalls ++
        (frags.flatMap fragJsonBlockCalls ++
          frags.flatMap fragBareArrayCalls)).map sigOf).Nodup) :
    parse_tool_calls frags
      = .ok (frags.flatMap fragMarkerCalls ++
          (frags.flatMap fragJsonBlockCalls ++
            frags.flatMap fragBareArrayCalls)) ∧
    (frags.flatMap fragMarkerCalls ++
      (frags.flatMap fragJsonBlockCalls ++
        frags.flatMap fragBareArrayCalls)).length
      = (frags.flatMap fragMarkerCalls).length
        + ((frags.flatMap fragJsonBlockCalls).length
          + (frags.flatMap fragBareArrayCalls).length) := by
  have hcol : collectCalls frags
      = frags.flatMap fragMarkerCalls ++
          (frags.flatMap fragMarkerBlockCalls ++
            (frags.flatMap fragJsonBlockCalls ++
              frags.flatMap fragBareArrayCalls)) := by
    unfold collectCalls
    rw [hx]
    simp [List.append_assoc]
  rw [List.map_append, List.nodup_append] at hnd
  refine ⟨?_, by simp⟩
  unfold parse_tool_calls
  rw [dedupCalls_eq_firstSeen _ [] hha, hcol]
  congr 1
  rw [dedupFirstSeen_append_nodup _ _ [] hnd.1 (by simp)]
  rw [dedupFirstSeen_skip _ _ _ (fun c hc => by
    refine List.mem_append_left _ ?_
    exact List.mem_map_of_mem sigOf (markerBlock_sub_marker frags c hc))]
  rw [dedupFirstSeen_all_new _ _ hnd.2.1 (fun c hc => by
    rw [List.append_nil]
    intro hmm
    exact hnd.2.2 hmm (List.mem_map_of_mem sigOf hc))]

/-- C3 witness: the amended theorem on the concrete mixed text — one
marker call, one json-block call, one bare-array call, three requests in
format-grouped order. -/
theorem parser_counts_formats_grouped_witness :
    fragsMixed.flatMap fragXmlCalls = [] ∧
    (((fragsMixed.flatMap fragMarkerCalls ++
        (fragsMixed.flatMap fragJsonBlockCalls ++
          fragsMixed.flatMap fragBareArrayCalls)).map sigOf).Nodup) ∧
    parse_tool_calls fragsMixed
      = .ok (fragsMixed.flatMap fragMarkerCalls ++
          (fragsMixed.flatMap fragJsonBlockCalls ++
            fragsMixed.flatMap fragBareArrayCalls)) ∧
    (fragsMixed.flatMap fragMarkerCalls ++
      (fragsMixed.flatMap fragJsonBlockCalls ++
        fragsMixed.flatMap fragBareArrayCalls)).length = 1 + (1 + 1) :=
  ⟨rfl, by decide,
   (parser_counts_formats_grouped fragsMixed rfl (by decide) (by decide)).1,
   by decide⟩

/-- C8: a successfully parsed request list has pairwise distinct
deduplication signatures; every collected call is represented by exactly
one request of its signature; each returned request is the first collected
occurrence of its signature; and the signature ignores argument order, so
the same call encoded twice (even with permuted argument pairs) yields one
deduplicated request. -/
theorem parse_dedup_order_independent_key (frags : List Fragment)
    (l : List ToolCall) (hok : parse_tool_calls frags = .ok l) :
    (l.map sigOf).Nodup ∧
    (∀ c ∈ collectCalls frags, ∃ c' ∈ l, sigOf c' = sigOf c) ∧
    (∀ c' ∈ l, (collectCalls frags).find?
        (fun x => decide (sigOf x = sigOf c')) = some c') ∧
    (∀ (n : String) (a₁ a₂ : List (String × Value)), a₁.Perm a₂ →
      sigOf ⟨n, a₁⟩ = sigOf ⟨n, a₂⟩) := by
  have hl : l = dedupFirstSeen (collectCalls frags) [] :=
    dedupCalls_ok_eq _ _ _ hok
  obtain ⟨_, h2, h3, h4⟩ := dedupFirstSeen_spec (collectCalls frags) []
  subst hl
  refine ⟨h2, ?_, h4, ?_⟩
  · intro c hc
    rcases h3 c hc with hfalse | h
    · cases hfalse
    · exact h
  · intro n a₁ a₂ hperm
    unfold sigOf
    simp only
    rw [List.toFinset_eq_of_perm _ _ hperm]

/-- C8 witness: the theorem applied to the two-format text — the same
`read_file` call appears in marker format and in bare-array format with
the argument pairs in the opposite order, and one deduplicated request is
returned, represented for both occurrences. -/
theorem parse_dedup_order_independent_key_witness :
    parse_tool_calls fragsTwoFormats
      = .ok [⟨"read_file", [("path", Value.str "a.py"), ("x", Value.num 1)]⟩] ∧
    (∃ c' ∈ [(⟨"read_file",
        [("path", Value.str "a.py"), ("x", Value.num 1)]⟩ : ToolCall)],
      sigOf c' = sigOf ⟨"read_file",
        [("x", Value.num 1), ("path", Value.str "a.py")]⟩) ∧
    sigOf ⟨"read_file", [("path", Value.str "a.py"), ("x", Value.num 1)]⟩
      = sigOf ⟨"read_file", [("x", Value.num 1), ("path", Value.str "a.py")]⟩ :=
  ⟨rfl,
   (parse_dedup_order_independent_key fragsTwoFormats _ rfl).2.1
     ⟨"read_file", [("x", Value.num 1), ("path", Value.str "a.py")]⟩
     (by decide),
   (parse_dedup_order_independent_key fragsTwoFormats _ rfl).2.2.2
     "read_file" _ _ (by decide)⟩

/-- C6 counterexample: validating an allowed `find_files` call on a fresh
validator changes the session state — the call passes validation, yet the
recent-search window gains the `x.py:name` signature, so validation is not
free of state mutation. -/
theorem validate_mutates_recent_searches :
    (validate_tool_call initValidatorState "find_files"
      [("pattern", Value.str "x.py")]).1 = true ∧
    (validate_tool_call initValidatorState "find_files"
      [("pattern", Value.str "x.py")]).2.2.recentSearches = ["x.py:name"] ∧
    initValidatorState.recentSearches = [] ∧
    (validate_tool_call initValidatorState "find_files"
      [("pattern", Value.str "x.py")]).2.2 ≠ initValidatorState := by
  refine ⟨rfl, rfl, rfl, ?_⟩
  decide

/-- C6 amended: `validate_tool_call` leaves the consecutive-count map, the
search-result cache, the known-files set and the call history unchanged
for every tool and argument mapping; only the recent-search window may be
mutated (by an allowed `find_files` validation). -/
theorem validate_preserves_state_except_recent (σ : ValidatorState)
    (tool : String) (args : List (String × Value)) :
    (validate_tool_call σ tool args).2.2.counts = σ.counts ∧
    (validate_tool_call σ tool args).2.2.foundFilesCache = σ.foundFilesCache ∧
    (validate_tool_call σ tool args).2.2.knownFiles = σ.knownFiles ∧
    (validate_tool_call σ tool args).2.2.history = σ.history := by
  unfold validate_tool_call
  split
  · exact ⟨rfl, rfl, rfl, rfl⟩
  · split
    · exact ⟨rfl, rfl, rfl, rfl⟩
    · split
      · exact ⟨rfl, rfl, rfl, rfl⟩
      · split
        · dsimp only
          split
          · exact ⟨rfl, rfl, rfl, rfl⟩
          · exact ⟨rfl, rfl, rfl, rfl⟩
        · exact ⟨rfl, rfl, rfl, rfl⟩

/-- C2 counterexample: two identical read requests on a fresh system. The
tool runs once and the second request is served from the cache, but no copy
is made: the store still holds a single result object, the second call
returns the same store index as the first, and that one shared object — the
very object the first call returned — now reads `cached = true`. -/
theorem cache_hit_returns_same_object_not_copy :
    (executeSingleToolSmart contentsTool
        (executeSingleToolSmart contentsTool initSmartState readReq).2 readReq).1
      = (executeSingleToolSmart contentsTool initSmartState readReq).1 ∧
    (executeSingleToolSmart contentsTool
        (executeSingleToolSmart contentsTool initSmartState readReq).2
        readReq).2.store.length = 1 ∧
    ((executeSingleToolSmart contentsTool
        (executeSingleToolSmart contentsTool initSmartState readReq).2
        readReq).2.store.map SResult.cached) = [true] := by
  exact ⟨rfl, rfl, rfl⟩

/-- C2 amended: for two identical side-effect-free requests the underlying
tool function runs exactly once; the second request consults the cache,
short-circuits execution, and returns the cached result object itself —
mutated in place to `cached = true` and carrying the same value — rather
than a copy of it. -/
theorem read_cache_exactly_once_same_object
    (toolFn : String → List (String × Value) → ToolOutcome)
    (σ : SmartState) (r : SRequest) (v : String)
    (hc : r.action ∈ CACHEABLE_TOOLS)
    (hmiss : cacheLookup σ.cache (smartCacheKey r) = none)
    (hok : toolFn r.action r.params = .ok v) :
    (executeSingleToolSmart toolFn
        (executeSingleToolSmart toolFn σ r).2 r).2.execLog
      = σ.execLog ++ [(r.action, r.params)] ∧
    (executeSingleToolSmart toolFn (executeSingleToolSmart toolFn σ r).2 r).1
      = (executeSingleToolSmart toolFn σ r).1 ∧
    (executeSingleToolSmart toolFn
        (executeSingleToolSmart toolFn σ r).2 r).2.store[
          (executeSingleToolSmart toolFn σ r).1]?
      = some { reqAction := r.action, reqParams := r.params, success := true,
               result := some v, error := none, cached := true } := by
  have hreg : r.action ∈ TOOL_REGISTRY := by
    simp only [CACHEABLE_TOOLS, List.mem_cons, List.not_mem_nil, or_false] at hc
    rcases hc with h | h | h <;> simp [TOOL_REGISTRY, h]
  have h0 : (σ.cache.find? fun pr => decide (pr.1 = smartCacheKey r)) = none := by
    have h := hmiss
    unfold cacheLookup at h
    exact Option.map_eq_none'.mp h
  have e1 : executeSingleToolSmart toolFn σ r =
      (σ.store.length,
       { cache := σ.cache ++ [(smartCacheKey r, σ.store.length)]
         store := σ.store ++ [{ reqAction := r.action
                                reqParams := r.params
                                success := true
                                result := some v
                                error := none
                                cached := false }]
         execLog := σ.execLog ++ [(r.action, r.params)] }) := by
    unfold executeSingleToolSmart
    dsimp only
    rw [hmiss]
    dsimp only
    rw [if_neg (not_not_intro hreg), hok]
    dsimp only
    rw [if_pos hc]
  have hlook2 : cacheLookup (σ.cache ++ [(smartCacheKey r, σ.store.length)])
      (smartCacheKey r) = some σ.store.length := by
    unfold cacheLookup
    rw [List.find?_append, h0]
    simp [List.find?]
  rw [e1]
  unfold executeSingleToolSmart
  dsimp only
  rw [hlook2]
  dsimp only
  unfold markCached
  rw [List.getElem?_concat_length]
  dsimp only
  refine ⟨rfl, rfl, ?_⟩
  rw [List.getElem?_set_eq_of_lt]
  simp

/-- C2 witness: the amended theorem applied to the concrete two-read
scenario on a fresh system. -/
theorem read_cache_exactly_once_same_object_witness :
    readReq.action ∈ CACHEABLE_TOOLS ∧
    cacheLookup initSmartState.cache (smartCacheKey readReq) = none ∧
    contentsTool readReq.action readReq.params = .ok "contents" ∧
    ((executeSingleToolSmart contentsTool
        (executeSingleToolSmart contentsTool initSmartState readReq).2
        readReq).2.execLog
      = initSmartState.execLog ++ [(readReq.action, readReq.params)] ∧
    (executeSingleToolSmart contentsTool
        (executeSingleToolSmart contentsTool initSmartState readReq).2 readReq).1
      = (executeSingleToolSmart contentsTool initSmartState readReq).1 ∧
    (executeSingleToolSmart contentsTool
        (executeSingleToolSmart contentsTool initSmartState readReq).2
        readReq).2.store[
          (executeSingleToolSmart contentsTool initSmartState readReq).1]?
      = some { reqAction := readReq.action, reqParams := readReq.params,
               success := true, result := some "contents", error := none,
               cached := true }) :=
  ⟨by decide, rfl, rfl,
   read_cache_exactly_once_same_object contentsTool initSmartState readReq
     "contents" (by decide) rfl rfl⟩

/-- C5: with the retry counter below its maximum and a non-empty corrected
batch from the model, the failure corrector merges every originally
successful result, unchanged, with the results of executing the corrected
calls; with exactly one failure and a one-result corrected execution, the
merged set has the size of the original batch. -/
theorem failure_merge_spec (ex : List SRequest → List SResult)
    (ctx : SExecutionContext) (reqs : List SRequest)
    (hretry : ctx.retryCount < ctx.maxRetries) (hne : reqs ≠ []) :
    handle_tool_failures ex ctx (some reqs)
      = some ((ctx.results.filter fun r => r.success) ++ ex reqs) ∧
    (∀ r ∈ ctx.results, r.success = true →
      r ∈ (ctx.results.filter fun r => r.success) ++ ex reqs) ∧
    ((ctx.results.filter fun r => !r.success).length = 1 →
      (ex reqs).length = 1 →
      ((ctx.results.filter fun r => r.success) ++ ex reqs).length
        = ctx.results.length) := by
  obtain ⟨a, as, rfl⟩ := List.exists_cons_of_ne_nil hne
  refine ⟨?_, ?_, ?_⟩
  · unfold handle_tool_failures
    rw [if_neg (Nat.not_le.mpr hretry)]
  · intro r hr hsucc
    exact List.mem_append_left _ (List.mem_filter.mpr ⟨hr, hsucc⟩)
  · intro hfail hlen
    have hperm := (List.filter_append_perm (fun r => r.success) ctx.results).length_eq
    rw [List.length_append] at hperm
    rw [List.length_append, hlen]
    omega

/-- C5 witness: the merge theorem applied to the concrete one-failure
batch and a one-call corrected execution. -/
theorem failure_merge_spec_witness :
    handle_tool_failures correctionExec correctionCtx (some correctionReqs)
      = some ((correctionCtx.results.filter fun r => r.success) ++
          correctionExec correctionReqs) ∧
    ((correctionCtx.results.filter fun r => r.success) ++
      correctionExec correctionReqs).length = correctionCtx.results.length :=
  ⟨(failure_merge_spec correctionExec correctionCtx correctionReqs
      (by decide) (by decide)).1,
   (failure_merge_spec correctionExec correctionCtx correctionReqs
      (by decide) (by decide)).2.2 (by decide) (by decide)⟩

/-- C10 counterexample: in `"!read a.py !run"` the force keyword `!run`
occurs somewhere other than as the first whitespace-separated token, yet
the force-keyword path executes a tool: the first token is itself a
keyword, so the call runs and the returned result list is non-empty —
neither the needs-an-argument nor the unknown-keyword message is produced. -/
theorem force_keyword_elsewhere_still_executes :
    strContainsSub (pyLower "!read a.py !run") "!run" = true ∧
    pySplitWsOnce "!read a.py !run" = ["!read", "a.py !run"] ∧
    process_force_path succeedingExec "!read a.py !run"
      = some ("Executed !read successfully",
          [⟨"read_file", [("path", Value.str "a.py !run")], true, some "ok",
            none, false⟩]) := by
  refine ⟨by decide, by decide, ?_⟩
  decide

/-- C10 amended: for every input that triggers force-keyword detection
(substring match anywhere in the lowercased input), if the input has fewer
than two whitespace-separated parts the needs-an-argument message is
returned, and if its first token does not map to a tool the
unknown-keyword message naming the lowercased first token is returned — in
both cases with an empty result list and no tool execution. -/
theorem force_path_non_keyword_first_token (ex : SRequest → SResult)
    (input : String) (hforce : has_force_keywords input = true) :
    ((pySplitWsOnce input).length < 2 →
      process_force_path ex input
        = some ("Force command needs an argument (e.g., !read filename.py)",
            [])) ∧
    (∀ t rest, pySplitWsOnce input = [t, rest] →
      keywordToTool (pyLower t) rest = none →
      process_force_path ex input
        = some ("Unknown force keyword: " ++ pyLower t, [])) := by
  constructor
  · intro hlen
    unfold process_force_path handle_force_keywords
    rw [if_pos hforce]
    rcases h : pySplitWsOnce input with _ | ⟨t, _ | ⟨r, rest⟩⟩
    · rfl
    · rfl
    · rw [h] at hlen
      simp at hlen
      omega
  · intro t rest h hkw
    unfold process_force_path handle_force_keywords
    rw [if_pos hforce, h]
    dsimp only
    rw [hkw]

/-- C10 witness: the amended theorem applied to `"please !read a.py"`,
whose first token is not a force keyword. -/
theorem force_path_non_keyword_first_token_witness :
    has_force_keywords "please !read a.py" = true ∧
    pySplitWsOnce "please !read a.py" = ["please", "!read a.py"] ∧
    keywordToTool (pyLower "please") "!read a.py" = none ∧
    process_force_path succeedingExec "please !read a.py"
      = some ("Unknown force keyword: " ++ pyLower "please", []) :=
  ⟨by decide, by decide, by decide,
   (force_path_non_keyword_first_token succeedingExec "please !read a.py"
      (by decide)).2 "please" "!read a.py" (by decide) (by decide)⟩

/-- Recording leaves the consecutive-count map equal to the bumped map,
whichever caching branch is taken. -/
theorem record_counts (σ : ValidatorState) (tool : String)
    (args : List (String × Value)) (result : String) :
    (record_tool_call σ tool args result).counts = countsBump σ.counts tool := by
  unfold record_tool_call
  dsimp only
  split
  · split
    · rfl
    · rfl
  · rfl

/-- A call whose arguments pass the empty check is blocked with the
consecutive-limit reason once the limit is hit. -/
theorem validate_blocked_consecutive (σ : ValidatorState) (tool : String)
    (args : List (String × Value)) (hempty : hasEmptyArgs tool args = false)
    (hex : exceedsConsecutiveLimit σ tool = true) :
    validate_tool_call σ tool args
      = (false,
         some ("Blocked " ++ tool ++ ": Exceeded consecutive call limit ("
           ++ toString MAX_CONSECUTIVE_SAME_TOOL ++ ")"), σ) := by
  unfold validate_tool_call
  simp [TOOL_CALL_VALIDATION, BLOCK_EMPTY_ARGS, hempty, hex]

/-- C4: with validation enabled and `MAX_CONSECUTIVE_SAME_TOOL = 2`, after
exactly two consecutive recorded calls to the same tool starting a fresh
run (the tool absent from the count map) the next call to that tool is
blocked with the consecutive-limit reason (the interpolated limit renders
as `(2)`); and after recording an intervening different tool `d` from any
unbroken-run state (all count-map keys equal the running tool `t`), the
count map is reset to `{d: 1}` and neither the next `t` call nor the next
`d` call trips the consecutive-repeat rule. -/
theorem consecutive_repeat_rule (σ : ValidatorState) (tool d t : String)
    (args argsR argsD : List (String × Value)) (r₁ r₂ rD : String) :
    ((σ.counts.any fun pr => decide (pr.1 = tool)) = false →
      hasEmptyArgs tool args = false →
      validate_tool_call
        (record_tool_call (record_tool_call σ tool argsR r₁) tool argsR r₂)
        tool args
        = (false,
           some ("Blocked " ++ tool ++ ": Exceeded consecutive call limit ("
             ++ toString MAX_CONSECUTIVE_SAME_TOOL ++ ")"),
           record_tool_call (record_tool_call σ tool argsR r₁) tool argsR r₂)) ∧
    ((∀ pr ∈ σ.counts, pr.1 = t) → d ≠ t →
      (record_tool_call σ d argsD rD).counts = [(d, 1)] ∧
      exceedsConsecutiveLimit (record_tool_call σ d argsD rD) t = false ∧
      exceedsConsecutiveLimit (record_tool_call σ d argsD rD) d = false) := by
  constructor
  · intro h1 h2
    have hb1 : (record_tool_call σ tool argsR r₁).counts = [(tool, 1)] := by
      rw [record_counts]
      unfold countsBump
      rw [h1]
      rfl
    have hb2 : (record_tool_call (record_tool_call σ tool argsR r₁) tool
        argsR r₂).counts = [(tool, 2)] := by
      rw [record_counts, hb1]
      unfold countsBump
      simp
    have hex : exceedsConsecutiveLimit
        (record_tool_call (record_tool_call σ tool argsR r₁) tool argsR r₂)
        tool = true := by
      unfold exceedsConsecutiveLimit countsGet
      rw [hb2]
      simp [MAX_CONSECUTIVE_SAME_TOOL]
    exact validate_blocked_consecutive _ tool args h2 hex
  · intro hall hdt
    have hany : (σ.counts.any fun pr => decide (pr.1 = d)) = false := by
      rw [List.any_eq_false]
      intro pr hpr
      simp only [decide_eq_true_eq]
      rw [hall pr hpr]
      exact fun hh => hdt hh.symm
    have hcounts : (record_tool_call σ d argsD rD).counts = [(d, 1)] := by
      rw [record_counts]
      unfold countsBump
      rw [hany]
      rfl
    refine ⟨hcounts, ?_, ?_⟩
    · unfold exceedsConsecutiveLimit countsGet
      rw [hcounts]
      simp [List.find?, MAX_CONSECUTIVE_SAME_TOOL, fun hh => hdt hh]
    · unfold exceedsConsecutiveLimit countsGet
      rw [hcounts]
      simp [List.find?, MAX_CONSECUTIVE_SAME_TOOL]

/-- C4 witness: both parts of the consecutive-repeat theorem on a fresh
validator — two recorded `read_file` calls block the third, and an
intervening `run_command` record resets the map so `read_file` is not
blocked by the rule. -/
theorem consecutive_repeat_rule_witness :
    ((initValidatorState.counts.any fun pr => decide (pr.1 = "read_file"))
      = false ∧
     hasEmptyArgs "read_file" [("path", Value.str "b.py")] = false ∧
     validate_tool_call
       (record_tool_call
         (record_tool_call initValidatorState "read_file"
           [("path", Value.str "a.py")] "text")
         "read_file" [("path", Value.str "a.py")] "text")
       "read_file" [("path", Value.str "b.py")]
       = (false,
          some ("Blocked " ++ "read_file"
            ++ ": Exceeded consecutive call limit ("
            ++ toString MAX_CONSECUTIVE_SAME_TOOL ++ ")"),
          record_tool_call
            (record_tool_call initValidatorState "read_file"
              [("path", Value.str "a.py")] "text")
            "read_file" [("path", Value.str "a.py")] "text")) ∧
    ((record_tool_call { initValidatorState with
        counts := [("read_file", 2)] } "run_command"
        [("cmd", Value.str "ls")] "out").counts = [("run_command", 1)] ∧
     exceedsConsecutiveLimit (record_tool_call { initValidatorState with
        counts := [("read_file", 2)] } "run_command"
        [("cmd", Value.str "ls")] "out") "read_file" = false) :=
  ⟨⟨by decide, by decide,
    (consecutive_repeat_rule initValidatorState "read_file" "run_command"
      "read_file" [("path", Value.str "b.py")] [("path", Value.str "a.py")]
      [("cmd", Value.str "ls")] "text" "text" "out").1 (by decide) (by decide)⟩,
   ⟨((consecutive_repeat_rule { initValidatorState with
        counts := [("read_file", 2)] } "read_file" "run_command" "read_file"
      [("path", Value.str "b.py")] [("path", Value.str "a.py")]
      [("cmd", Value.str "ls")] "text" "text" "out").2
      (by decide) (by decide)).1,
    ((consecutive_repeat_rule { initValidatorState with
        counts := [("read_file", 2)] } "read_file" "run_command" "read_file"
      [("path", Value.str "b.py")] [("path", Value.str "a.py")]
      [("cmd", Value.str "ls")] "text" "text" "out").2
      (by decide) (by decide)).2.1⟩⟩

/-- C7 counterexample: a validated, executed `read_file` call whose tool
function raises leaves the validator untouched — the history and the
consecutive-count map are still empty afterwards, so the record operation
was not performed for this executed (non-blocked) call. -/
theorem failed_execution_not_recorded :
    (executeSingleToolCT throwingTool initValidatorState readCall).1.success
      = false ∧
    (executeSingleToolCT throwingTool initValidatorState readCall).1.error
      = some "boom" ∧
    (executeSingleToolCT throwingTool initValidatorState readCall).2.history
      = [] ∧
    (executeSingleToolCT throwingTool initValidatorState readCall).2.counts
      = [] := by
  exact ⟨rfl, rfl, rfl, rfl⟩

/-- C7 amended: the engine calls the validator's record operation only
after a successful execution; when the tool function raises, the engine
returns a failed result and leaves the validator state exactly as
validation produced it, performing no record. -/
theorem record_called_only_on_success
    (toolFn : String → List (String × Value) → ToolOutcome)
    (σ : ValidatorState) (c : ToolCall) (v e : String)
    (hallow : (validate_tool_call σ c.name c.args).1 = true)
    (hreg : c.name ∈ TOOL_REGISTRY) :
    (toolFn c.name c.args = .ok v →
      executeSingleToolCT toolFn σ c
        = ({ callName := c.name
             callArgs := c.args
             result := some v
             success := true
             error := none },
           record_tool_call (validate_tool_call σ c.name c.args).2.2
             c.name c.args v)) ∧
    (toolFn c.name c.args = .exn e →
      executeSingleToolCT toolFn σ c
        = ({ callName := c.name
             callArgs := c.args
             result := none
             success := false
             error := some e },
           (validate_tool_call σ c.name c.args).2.2)) := by
  constructor <;> intro hout <;>
    · unfold executeSingleToolCT
      try dsimp only
      rw [hallow]
      try dsimp only
      rw [if_neg (not_not_intro hreg), hout]
      rfl

/-- C7 witness: the amended theorem at a concrete read call, once with a
returning tool function (the state is the recorded one) and once with a
raising one (the state is the validation state). -/
theorem record_called_only_on_success_witness :
    (validate_tool_call initValidatorState readCall.name readCall.args).1
      = true ∧
    readCall.name ∈ TOOL_REGISTRY ∧
    executeSingleToolCT contentsTool initValidatorState readCall
      = ({ callName := readCall.name
           callArgs := readCall.args
           result := some "contents"
           success := true
           error := none },
         record_tool_call
           (validate_tool_call initValidatorState readCall.name
             readCall.args).2.2 readCall.name readCall.args "contents") ∧
    executeSingleToolCT throwingTool initValidatorState readCall
      = ({ callName := readCall.name
           callArgs := readCall.args
           result := none
           success := false
           error := some "boom" },
         (validate_tool_call initValidatorState readCall.name
           readCall.args).2.2) :=
  ⟨by decide, by decide,
   (record_called_only_on_success contentsTool initValidatorState readCall
     "contents" "boom" (by decide) (by decide)).1 rfl,
   (record_called_only_on_success throwingTool initValidatorState readCall
     "contents" "boom" (by decide) (by decide)).2 rfl⟩

/-- C9: parsing a text that contains a well-formed marker call together
with a json-block call whose argument mapping holds a list value aborts the
whole parse with a `TypeError` from the deduplication step — the marker
call parsed from the rest of the text is not returned. -/
theorem parse_aborts_on_unhashable_args :
    parse_tool_calls fragsWithUnhashable = .error () ∧
    (collectCalls fragsWithUnhashable).length = 2 := by
  exact ⟨rfl, rfl⟩

end Clokai
